import Mathlib

/-!
Shallow embedding of `src/main.js` (movies line/bar chart script).

The script loads a CSV of movie records, coerces the `gross`, `imdb_score`
and `title_year` fields with JavaScript unary `+`, and runs two aggregation
pipelines: total gross by year (line chart) and top-6 directors by average
IMDb score (bar chart).  JavaScript numbers are modelled as `JsVal`:
`null`, `NaN`, or a rational.  Field values after loading are never
strings, so string-valued operands are not modelled.
-/

namespace Movies

/-- A JavaScript field value as it occurs on a record in `main.js`:
`null`/missing, the number `NaN`, or an ordinary number (modelled as a
rational; the script does no arithmetic where binary-float rounding could
change any of the claimed properties' truth on the inputs considered). -/
inductive JsVal where
  | null : JsVal
  | nan  : JsVal
  | num  : ℚ → JsVal
deriving DecidableEq

/-- JavaScript `ToNumber` on a `JsVal`: `null` coerces to `0`, `NaN` stays
not-a-number (`none`), numbers are themselves. -/
def jsNumVal : JsVal → Option ℚ
  | JsVal.null => some 0
  | JsVal.nan  => none
  | JsVal.num q => some q

/-- JavaScript loose inequality `v != null`: false exactly for `null`
(and `undefined`, which cannot occur as a field value here). -/
def jsNeNull : JsVal → Bool
  | JsVal.null => false
  | _ => true

/-- JavaScript `v >= q` for a numeric literal `q`: both sides go through
`ToNumber` and any `NaN` makes the comparison false. -/
def jsGe (v : JsVal) (q : ℚ) : Bool :=
  match jsNumVal v with
  | some x => decide (q ≤ x)
  | none => false

/-- JavaScript subtraction `a - b` on field values: `ToNumber` both sides,
`NaN` propagates. -/
def jsSub (a b : JsVal) : JsVal :=
  match jsNumVal a, jsNumVal b with
  | some x, some y => JsVal.num (x - y)
  | _, _ => JsVal.nan

/-- JavaScript addition on field values (used to state the spec's
"sum of gross" over records): `NaN` propagates, `null` coerces to `0`. -/
def jsAdd (a b : JsVal) : JsVal :=
  match jsNumVal a, jsNumVal b with
  | some x, some y => JsVal.num (x + y)
  | _, _ => JsVal.nan

/-- Subtraction `a - b` where either side may be `undefined` (`none`),
as in the bar chart's sort comparator on possibly-undefined means. -/
def jsSubOpt (a b : Option ℚ) : JsVal :=
  match a, b with
  | some x, some y => JsVal.num (x - y)
  | _, _ => JsVal.nan

/-- `SortCompare` of `Array.prototype.sort`: a comparator result that is
`NaN` counts as `+0`, so "keep the pair in order" is "result ≤ 0 or NaN". -/
def sortLeB : JsVal → Bool
  | JsVal.num q => decide (q ≤ 0)
  | _ => true

/-! JavaScript string-to-number coercion (unary `+` on a CSV field).
`+""` (after trimming whitespace) is `0`; a decimal numeric literal with
optional sign, fraction and exponent is its value; anything else is `NaN`.
Hexadecimal/binary/octal literals and the literal `Infinity` are outside
the data this script loads and are not modelled. -/

/-- Whitespace stripped by `ToNumber` before parsing. -/
def jsWhitespaceChar (c : Char) : Bool :=
  c = ' ' || c = '\t' || c = '\n' || c = '\r'

/-- Strip leading and trailing whitespace from a character list. -/
def trimChars (cs : List Char) : List Char :=
  ((cs.dropWhile jsWhitespaceChar).reverse.dropWhile jsWhitespaceChar).reverse

/-- Value of a (decimal) digit string. -/
def digitsToNat (cs : List Char) : Nat :=
  cs.foldl (fun a c => a * 10 + (c.toNat - 48)) 0

/-- Every character is a decimal digit. -/
def allDigits (cs : List Char) : Bool := cs.all Char.isDigit

/-- Parse the digits of an exponent, with optional sign. -/
def parseExpTail (cs : List Char) : Option Int :=
  match cs with
  | [] => none
  | '+' :: ds => if ds ≠ [] && allDigits ds then some (digitsToNat ds : Int) else none
  | '-' :: ds => if ds ≠ [] && allDigits ds then some (-(digitsToNat ds : Int)) else none
  | ds => if allDigits ds then some (digitsToNat ds : Int) else none

/-- Parse an optional exponent suffix (`e`/`E` then a signed integer);
an empty rest means exponent `0`. -/
def parseExpPart (cs : List Char) : Option Int :=
  match cs with
  | [] => some 0
  | 'e' :: rest => parseExpTail rest
  | 'E' :: rest => parseExpTail rest
  | _ => none

/-- Parse an unsigned decimal numeric literal: digits, optional fraction,
optional exponent. -/
def parseUnsigned (cs : List Char) : Option ℚ :=
  let intPart := cs.takeWhile Char.isDigit
  let rest1 := cs.dropWhile Char.isDigit
  match rest1 with
  | '.' :: rest2 =>
    let fracPart := rest2.takeWhile Char.isDigit
    let rest3 := rest2.dropWhile Char.isDigit
    if intPart.isEmpty && fracPart.isEmpty then none
    else
      match parseExpPart rest3 with
      | some e =>
        some (((digitsToNat intPart : ℚ) +
          (digitsToNat fracPart : ℚ) / ((10 : ℚ) ^ fracPart.length)) * (10 : ℚ) ^ e)
      | none => none
  | _ =>
    if intPart.isEmpty then none
    else
      match parseExpPart rest1 with
      | some e => some ((digitsToNat intPart : ℚ) * (10 : ℚ) ^ e)
      | none => none

/-- JavaScript unary `+` on a string: trim, empty means `0`, otherwise a
signed decimal literal or `NaN`. -/
def jsToNumber (s : String) : JsVal :=
  match trimChars s.toList with
  | [] => JsVal.num 0
  | '+' :: rest =>
    match parseUnsigned rest with
    | some q => JsVal.num q
    | none => JsVal.nan
  | '-' :: rest =>
    match parseUnsigned rest with
    | some q => JsVal.num (-q)
    | none => JsVal.nan
  | cs =>
    match parseUnsigned cs with
    | some q => JsVal.num q
    | none => JsVal.nan

/-- A raw CSV row as `d3.csv` delivers it: the four fields `main.js`
touches, all strings. -/
structure RawRecord where
  gross : String
  imdb_score : String
  title_year : String
  director_name : String
deriving DecidableEq

/-- A record after the `data.forEach` reformat block of `main.js`:
`d.gross = +d.gross; d.score = +d.imdb_score; d.year = +d.title_year;
d.director = d.director_name`. -/
structure Record where
  gross : JsVal
  score : JsVal
  year : JsVal
  director : String
deriving DecidableEq

/-- The per-row coercion of the `data.forEach` block. -/
def loadRow (d : RawRecord) : Record :=
  ⟨jsToNumber d.gross, jsToNumber d.imdb_score, jsToNumber d.title_year,
    d.director_name⟩

/-- The whole reformat step: every row is kept, each coerced by `loadRow`. -/
def loadData (rows : List RawRecord) : List Record :=
  rows.map loadRow

/-- The numeric (non-`NaN`, non-`null`) part of a field value. -/
def numPart : JsVal → Option ℚ
  | JsVal.num q => some q
  | _ => none

/-- One step of `d3.sum`: the value goes through `ToNumber` and is added
only when truthy, so `null`, `NaN` and `0` are all skipped. -/
def d3sumStep (acc : ℚ) (v : JsVal) : ℚ :=
  match jsNumVal v with
  | some q => if q = 0 then acc else acc + q
  | none => acc

/-- `d3.sum` over field values. -/
def d3sum (l : List JsVal) : ℚ :=
  l.foldl d3sumStep 0

/-- Arithmetic mean of a list of rationals, `none` (undefined) when the
list is empty — the shape of the value `d3.mean` returns. -/
def ratMean (l : List ℚ) : Option ℚ :=
  if l.isEmpty then none else some (l.sum / l.length)

/-- `d3.mean` over field values: `null` and `NaN` values are not counted;
with no counted value the result is `undefined` (`none`). -/
def d3mean (l : List JsVal) : Option ℚ :=
  ratMean (l.filterMap numPart)

/-- Fuel-indexed grouping of `d3.rollup`'s `InternMap`: group keys appear
in order of first occurrence and each group lists its records in data
order.  The fuel bounds the recursion depth; `jsGroups` supplies enough. -/
def jsGroupsF {α κ : Type} [DecidableEq κ] (key : α → κ) :
    Nat → List α → List (κ × List α)
  | 0, _ => []
  | _, [] => []
  | fuel + 1, r :: rs =>
    (key r, r :: rs.filter (fun x => key x = key r)) ::
      jsGroupsF key fuel (rs.filter (fun x => key x ≠ key r))

/-- The grouping step of `d3.rollup` (before the per-group reduce). -/
def jsGroups {α κ : Type} [DecidableEq κ] (key : α → κ) (l : List α) :
    List (κ × List α) :=
  jsGroupsF key l.length l

/-- Insert `x` into `l` before the first element `y` with `le x y`; the
insertion step of the stable sort modelling `Array.prototype.sort`. -/
def jsInsert {α : Type} (le : α → α → Bool) (x : α) : List α → List α
  | [] => [x]
  | y :: ys => if le x y then x :: y :: ys else y :: jsInsert le x ys

/-- `Array.prototype.sort` with a comparator `c`, modelled as the stable
insertion sort for the relation `le x y` = "`SortCompare` of `c x y` is
not positive".  For a consistent comparator this is the sort order the
ECMAScript specification mandates; for an inconsistent one (the
comparators here return `NaN` on undefined means) the specification
leaves the order implementation-defined and this model fixes it. -/
def jsSort {α : Type} (le : α → α → Bool) : List α → List α
  | [] => []
  | x :: xs => jsInsert le x (jsSort le xs)

/-! The line chart pipeline (steps 3.a to 3.c of `main.js`). -/

/-- One point of the line chart: `({ year, gross })` from a rollup entry.
`year` is the grouping key (a field value), `gross` the `d3.sum` result
(always a number). -/
structure YearlyTotal where
  year : JsVal
  gross : ℚ
deriving DecidableEq

/-- Step 3.a: `data.filter(d => d.gross != null && d.year != null &&
d.year >= 2010)`. -/
def lineCleanData (data : List Record) : List Record :=
  data.filter (fun d => jsNeNull d.gross && jsNeNull d.year && jsGe d.year 2010)

/-- Step 3.b: `d3.rollup(lineCleanData, v => d3.sum(v, d => d.gross),
d => d.year)`. -/
def sumGrossByYear (data : List Record) : List (JsVal × ℚ) :=
  (jsGroups (fun d : Record => d.year) (lineCleanData data)).map
    (fun p => (p.1, d3sum (p.2.map (fun d => d.gross))))

/-- The line chart sort's relation: comparator `(a, b) => a.year - b.year`
through `SortCompare`. -/
def lineLe (a b : YearlyTotal) : Bool := sortLeB (jsSub a.year b.year)

/-- Step 3.c: `Array.from(sumGrossByYear, ([year, gross]) => ({year,
gross})).sort((a, b) => a.year - b.year)`. -/
def lineData (data : List Record) : List YearlyTotal :=
  jsSort lineLe ((sumGrossByYear data).map (fun p => ⟨p.1, p.2⟩))

/-! The bar chart pipeline (`barCleanData`, `barMap`, `barFinalArr`). -/

/-- One bar: `({ director, score })` from a rollup entry; `score` is the
`d3.mean` result, which is `undefined` (`none`) on a group with no
counted value. -/
structure DirectorAverage where
  director : String
  score : Option ℚ
deriving DecidableEq

/-- `data.filter(d => d.director != '' && d.score != null)`. -/
def barCleanData (data : List Record) : List Record :=
  data.filter (fun d => d.director ≠ "" && jsNeNull d.score)

/-- `d3.rollup(barCleanData, v => d3.mean(v, d => d.score),
d => d.director)`. -/
def barMap (data : List Record) : List (String × Option ℚ) :=
  (jsGroups (fun d : Record => d.director) (barCleanData data)).map
    (fun p => (p.1, d3mean (p.2.map (fun d => d.score))))

/-- `Array.from(barMap, ([director, score]) => ({director, score}))`. -/
def barFromMap (data : List Record) : List DirectorAverage :=
  (barMap data).map (fun p => ⟨p.1, p.2⟩)

/-- The bar chart sort's relation: comparator `(a, b) => b.score -
a.score` through `SortCompare`. -/
def barLe (a b : DirectorAverage) : Bool := sortLeB (jsSubOpt b.score a.score)

/-- The `.sort((a, b) => b.score - a.score)` stage of `barFinalArr`. -/
def barSorted (data : List Record) : List DirectorAverage :=
  jsSort barLe (barFromMap data)

/-- `barFinalArr`: rollup entries as objects, sorted by descending score,
then `.slice(0, 6)`. -/
def barFinalArr (data : List Record) : List DirectorAverage :=
  (barSorted data).take 6

/-! Scale mappers.  The scales in `main.js` are `d3.scaleLinear` and
`d3.scaleBand`, library code outside this repository, so they are
modelled from the spec's definitions of the two mappers. -/

/-- Modelled from the spec: the linear mapper (`d3.scaleLinear` is not in
`src/`): affine transform `rangeMin + (value - domainMin) / (domainMax -
domainMin) * (rangeMax - rangeMin)`, mapping everything to `rangeMin`
when `domainMin = domainMax` (single-point domain, no division). -/
def linearMapper (d0 d1 r0 r1 x : ℚ) : ℚ :=
  if d0 = d1 then r0 else r0 + (x - d0) / (d1 - d0) * (r1 - r0)

/-- Modelled from the spec: the categorical band mapper's position
(`d3.scaleBand` is not in `src/`): the range splits into one equal band
per category, each shrunk by the padding fraction on both sides; a
category outside the domain (in particular any category when the domain
is empty) has undefined position. -/
def bandPosition (cats : List String) (r0 r1 padding : ℚ) (c : String) :
    Option ℚ :=
  match cats.indexOf? c with
  | none => none
  | some i =>
    some (r0 + ((r1 - r0) / (cats.length : ℚ)) * ((i : ℚ) + padding))

/-- Modelled from the spec: the band mapper's shared bandwidth; zero when
the domain is empty. -/
def bandWidth (cats : List String) (r0 r1 padding : ℚ) : ℚ :=
  if cats.length = 0 then 0
  else ((r1 - r0) / (cats.length : ℚ)) * (1 - 2 * padding)

/-! Further definitions used to state the claims. -/

/-- The amount a field value contributes to `d3.sum`: its numeric value,
or `0` for `null` and `NaN` (which the sum skips). -/
def qVal : JsVal → ℚ
  | JsVal.num q => q
  | _ => 0

/-- Sum of field values under JavaScript addition, reading "the sum of
`gross` over those records" literally on nullable/NaN fields: one `NaN`
operand makes the whole sum `NaN`. -/
def specSumGross (l : List JsVal) : JsVal :=
  l.foldr jsAdd (JsVal.num 0)

/-- Non-increasing comparison of two possibly-undefined average scores;
a pair involving an undefined score is not counted as out of order. -/
def scoreGeOpt : Option ℚ → Option ℚ → Bool
  | some x, some y => decide (y ≤ x)
  | _, _ => true

/-- Strict ascending comparison of the year fields of two line points. -/
def yearLt (a b : YearlyTotal) : Bool :=
  match a.year, b.year with
  | JsVal.num x, JsVal.num y => decide (x < y)
  | _, _ => false

/-- Modelled from the spec: the year-only filter "year non-null and year
at least 2010", for comparison with the three-condition filter of
`lineCleanData`. -/
def lineCleanDataYearOnly (data : List Record) : List Record :=
  data.filter (fun d => jsNeNull d.year && jsGe d.year 2010)

/-- A one-record dataset whose gross is `NaN` (a failed coercion) in a
qualifying year. -/
def dataC1 : List Record := [⟨JsVal.nan, JsVal.num 0, JsVal.num 2010, "d"⟩]

/-- A three-director dataset in which the middle director's only score is
`NaN`, so that director's mean is undefined. -/
def dataC3 : List Record :=
  [⟨JsVal.num 0, JsVal.num 5, JsVal.num 0, "A"⟩,
   ⟨JsVal.num 0, JsVal.nan, JsVal.num 0, "U"⟩,
   ⟨JsVal.num 0, JsVal.num 9, JsVal.num 0, "B"⟩]

/-- A raw row whose score fails coercion and whose director is known. -/
def rawC10 : RawRecord := ⟨"", "abc", "", "X"⟩

/-! Lemmas about the stable sort `jsSort`. -/

theorem jsInsert_perm {α : Type} (le : α → α → Bool) (x : α) (l : List α) :
    (jsInsert le x l).Perm (x :: l) := by
  induction l with
  | nil => simp [jsInsert]
  | cons y ys ih =>
    by_cases h : le x y = true
    · simp [jsInsert, h]
    · rw [jsInsert, if_neg h]
      exact (ih.cons y).trans (List.Perm.swap x y ys)

theorem jsSort_perm {α : Type} (le : α → α → Bool) (l : List α) :
    (jsSort le l).Perm l := by
  induction l with
  | nil => simp [jsSort]
  | cons x xs ih =>
    exact (jsInsert_perm le x (jsSort le xs)).trans (ih.cons x)

theorem mem_jsSort {α : Type} {le : α → α → Bool} {l : List α} {a : α} :
    a ∈ jsSort le l ↔ a ∈ l :=
  (jsSort_perm le l).mem_iff

theorem mem_jsInsert {α : Type} {le : α → α → Bool} {x a : α} {l : List α} :
    a ∈ jsInsert le x l ↔ a = x ∨ a ∈ l := by
  rw [(jsInsert_perm le x l).mem_iff, List.mem_cons]

/-- Sortedness of `jsInsert`, with totality and transitivity of the
relation required only on a predicate covering the inserted elements. -/
theorem jsInsert_pairwise {α : Type} {le : α → α → Bool} {P : α → Prop}
    (htot : ∀ a b, P a → P b → le a b = true ∨ le b a = true)
    (htrans : ∀ a b c, P a → P b → P c →
      le a b = true → le b c = true → le a c = true)
    {x : α} {l : List α} (hx : P x) (hl : ∀ a ∈ l, P a)
    (hs : l.Pairwise (fun a b => le a b = true)) :
    (jsInsert le x l).Pairwise (fun a b => le a b = true) := by
  induction l with
  | nil => simp [jsInsert]
  | cons y ys ih =>
    rw [List.pairwise_cons] at hs
    obtain ⟨hy, hys⟩ := hs
    by_cases h : le x y = true
    · simp only [jsInsert, if_pos h]
      refine List.Pairwise.cons ?_ (List.Pairwise.cons hy hys)
      intro z hz
      rcases List.mem_cons.mp hz with rfl | hz
      · exact h
      · exact htrans x y z hx (hl y (by simp)) (hl z (by simp [hz])) h (hy z hz)
    · simp only [jsInsert, if_neg h]
      refine List.Pairwise.cons ?_ (ih (fun a ha => hl a (by simp [ha])) hys)
      intro z hz
      rcases mem_jsInsert.mp hz with hzx | hz
      · subst hzx
        rcases htot z y hx (hl y (by simp)) with hxy | hyx
        · exact absurd hxy h
        · exact hyx
      · exact hy z hz

/-- Sortedness of `jsSort` under locally total and transitive relations. -/
theorem jsSort_pairwise {α : Type} {le : α → α → Bool} {P : α → Prop}
    (htot : ∀ a b, P a → P b → le a b = true ∨ le b a = true)
    (htrans : ∀ a b c, P a → P b → P c →
      le a b = true → le b c = true → le a c = true)
    {l : List α} (hl : ∀ a ∈ l, P a) :
    (jsSort le l).Pairwise (fun a b => le a b = true) := by
  induction l with
  | nil => simp [jsSort]
  | cons x xs ih =>
    exact jsInsert_pairwise htot htrans (hl x (by simp))
      (fun a ha => hl a (by simp [mem_jsSort.mp ha]))
      (ih (fun a ha => hl a (by simp [ha])))

theorem sublist_jsInsert {α : Type} (le : α → α → Bool) (x : α) (l : List α) :
    l.Sublist (jsInsert le x l) := by
  induction l with
  | nil => simp [jsInsert]
  | cons y ys ih =>
    by_cases h : le x y = true
    · simp only [jsInsert, if_pos h]
      exact List.Sublist.cons x (List.Sublist.refl (y :: ys))
    · simp only [jsInsert, if_neg h]
      exact List.Sublist.cons₂ y ih

/-- An element already at or after the insertion point stays after the
inserted one: `x` lands before every `b` of `l` with `le x b`. -/
theorem jsInsert_before {α : Type} {le : α → α → Bool} {x b : α}
    {l : List α} (hb : b ∈ l) (hxb : le x b = true) :
    [x, b].Sublist (jsInsert le x l) := by
  induction l with
  | nil => cases hb
  | cons y ys ih =>
    by_cases h : le x y = true
    · simp only [jsInsert, if_pos h]
      exact List.Sublist.cons₂ x (List.singleton_sublist.mpr hb)
    · simp only [jsInsert, if_neg h]
      rcases List.mem_cons.mp hb with rfl | hb
      · exact absurd hxb h
      · exact List.Sublist.cons y (ih hb)

/-- Stability of `jsSort`: a pair already in order under the relation
keeps its relative order. -/
theorem jsSort_stable {α : Type} {le : α → α → Bool} {a b : α}
    {l : List α} (hab : [a, b].Sublist l) (hle : le a b = true) :
    [a, b].Sublist (jsSort le l) := by
  induction l with
  | nil => cases hab
  | cons x xs ih =>
    cases hab with
    | cons _ h => exact (ih h).trans (sublist_jsInsert le x (jsSort le xs))
    | cons₂ _ h =>
      exact jsInsert_before (mem_jsSort.mpr (List.singleton_sublist.mp h)) hle

/-! Lemmas about the rollup grouping `jsGroups`. -/

theorem jsGroupsF_key_mem {α κ : Type} [DecidableEq κ] (key : α → κ) :
    ∀ (fuel : Nat) (l : List α) (k : κ),
      k ∈ (jsGroupsF key fuel l).map Prod.fst → ∃ x ∈ l, key x = k := by
  intro fuel
  induction fuel with
  | zero => intro l k h; simp [jsGroupsF] at h
  | succ n ih =>
    intro l k h
    match l with
    | [] => simp [jsGroupsF] at h
    | r :: rs =>
      simp only [jsGroupsF, List.map_cons, List.mem_cons] at h
      rcases h with h | h
      · exact ⟨r, by simp, h.symm⟩
      · obtain ⟨x, hx, hk⟩ := ih _ k h
        exact ⟨x, by simp [(List.mem_filter.mp hx).1], hk⟩

theorem jsGroupsF_keys_nodup {α κ : Type} [DecidableEq κ] (key : α → κ) :
    ∀ (fuel : Nat) (l : List α), l.length ≤ fuel →
      ((jsGroupsF key fuel l).map Prod.fst).Nodup := by
  intro fuel
  induction fuel with
  | zero => intro l _; simp [jsGroupsF]
  | succ n ih =>
    intro l hl
    match l with
    | [] => simp [jsGroupsF]
    | r :: rs =>
      simp only [jsGroupsF, List.map_cons, List.nodup_cons]
      constructor
      · intro hmem
        obtain ⟨x, hx, hk⟩ := jsGroupsF_key_mem key n _ _ hmem
        have hne := (List.mem_filter.mp hx).2
        simp [hk] at hne
      · refine ih _ (le_trans (List.length_filter_le _ _) ?_)
        simpa using Nat.succ_le_succ_iff.mp (by simpa using hl)

theorem jsGroupsF_eq_filter {α κ : Type} [DecidableEq κ] (key : α → κ) :
    ∀ (fuel : Nat) (l : List α) (p : κ × List α), l.length ≤ fuel →
      p ∈ jsGroupsF key fuel l → p.2 = l.filter (fun x => key x = p.1) := by
  intro fuel
  induction fuel with
  | zero => intro l p _ h; simp [jsGroupsF] at h
  | succ n ih =>
    intro l p hl hp
    match l with
    | [] => simp [jsGroupsF] at hp
    | r :: rs =>
      simp only [jsGroupsF, List.mem_cons] at hp
      have hrs : rs.length ≤ n := Nat.succ_le_succ_iff.mp (by simpa using hl)
      rcases hp with rfl | hp
      · simp [List.filter_cons]
      · have hfl : (rs.filter (fun x => key x ≠ key r)).length ≤ n :=
          le_trans (List.length_filter_le _ _) hrs
        have h2 := ih _ p hfl hp
        have hkr : p.1 ≠ key r := by
          obtain ⟨x, hx, hk⟩ :=
            jsGroupsF_key_mem key n _ p.1 (List.mem_map_of_mem Prod.fst hp)
          have hne := (List.mem_filter.mp hx).2
          intro hEq
          rw [hEq] at hk
          simp [hk] at hne
        rw [h2, List.filter_filter, List.filter_cons_of_neg (by simp [hkr.symm])]
        refine List.filter_congr ?_
        intro x _
        by_cases hxk : key x = p.1
        · simp [hxk, hkr]
        · simp [hxk]

theorem sum_map_filter_split {α : Type} (p : α → Bool) (f : α → ℚ) (l : List α) :
    ((l.filter p).map f).sum + ((l.filter (fun x => !(p x))).map f).sum
      = (l.map f).sum := by
  induction l with
  | nil => simp
  | cons x xs ih =>
    by_cases h : p x = true
    · simp [List.filter_cons, h]
      linarith [ih]
    · simp [List.filter_cons, h]
      linarith [ih]

theorem jsGroupsF_sum {α κ : Type} [DecidableEq κ] (key : α → κ) (f : α → ℚ) :
    ∀ (fuel : Nat) (l : List α), l.length ≤ fuel →
      ((jsGroupsF key fuel l).map (fun p => (p.2.map f).sum)).sum
        = (l.map f).sum := by
  intro fuel
  induction fuel with
  | zero =>
    intro l hl
    rw [List.length_eq_zero.mp (Nat.le_zero.mp hl)]
    simp [jsGroupsF]
  | succ n ih =>
    intro l hl
    match l with
    | [] => simp [jsGroupsF]
    | r :: rs =>
      have hrs : rs.length ≤ n := Nat.succ_le_succ_iff.mp (by simpa using hl)
      simp only [jsGroupsF, List.map_cons, List.sum_cons]
      rw [ih _ (le_trans (List.length_filter_le _ _) hrs)]
      have hsplit := sum_map_filter_split (fun x => decide (key x = key r)) f rs
      have hpred : (rs.filter (fun x => key x ≠ key r))
          = rs.filter (fun x => !(decide (key x = key r))) := by
        refine List.filter_congr ?_
        intro x _
        simp
      rw [hpred, add_assoc, hsplit]

theorem jsGroups_keys_nodup {α κ : Type} [DecidableEq κ] (key : α → κ)
    (l : List α) : ((jsGroups key l).map Prod.fst).Nodup :=
  jsGroupsF_keys_nodup key l.length l le_rfl

theorem jsGroups_key_mem {α κ : Type} [DecidableEq κ] {key : α → κ}
    {l : List α} {k : κ} (h : k ∈ (jsGroups key l).map Prod.fst) :
    ∃ x ∈ l, key x = k :=
  jsGroupsF_key_mem key l.length l k h

theorem jsGroups_eq_filter {α κ : Type} [DecidableEq κ] {key : α → κ}
    {l : List α} {p : κ × List α} (h : p ∈ jsGroups key l) :
    p.2 = l.filter (fun x => key x = p.1) :=
  jsGroupsF_eq_filter key l.length l p le_rfl h

theorem jsGroups_sum {α κ : Type} [DecidableEq κ] (key : α → κ) (f : α → ℚ)
    (l : List α) :
    ((jsGroups key l).map (fun p => (p.2.map f).sum)).sum = (l.map f).sum :=
  jsGroupsF_sum key f l.length l le_rfl

/-! Lemmas about sums, means and the coercion. -/

theorem d3sumStep_eq (acc : ℚ) (v : JsVal) : d3sumStep acc v = acc + qVal v := by
  cases v with
  | null => simp [d3sumStep, jsNumVal, qVal]
  | nan => simp [d3sumStep, jsNumVal, qVal]
  | num q =>
    by_cases h : q = 0 <;> simp [d3sumStep, jsNumVal, qVal, h]

theorem d3sum_eq (l : List JsVal) : d3sum l = (l.map qVal).sum := by
  suffices h : ∀ acc : ℚ, l.foldl d3sumStep acc = acc + (l.map qVal).sum by
    simpa [d3sum] using h 0
  induction l with
  | nil => intro acc; simp
  | cons v vs ih =>
    intro acc
    simp only [List.foldl_cons, ih, d3sumStep_eq, List.map_cons, List.sum_cons]
    ring

theorem filterMap_numPart_sum (l : List JsVal) :
    (l.filterMap numPart).sum = (l.map qVal).sum := by
  induction l with
  | nil => simp
  | cons v vs ih => cases v <;> simp [numPart, qVal, ih]

theorem jsToNumber_shape (s : String) :
    jsToNumber s = JsVal.nan ∨ ∃ q : ℚ, jsToNumber s = JsVal.num q := by
  unfold jsToNumber
  split
  · exact Or.inr ⟨0, rfl⟩
  · split
    · exact Or.inr ⟨_, rfl⟩
    · exact Or.inl rfl
  · split
    · exact Or.inr ⟨_, rfl⟩
    · exact Or.inl rfl
  · split
    · exact Or.inr ⟨_, rfl⟩
    · exact Or.inl rfl

theorem jsToNumber_ne_null (s : String) : jsToNumber s ≠ JsVal.null := by
  rcases jsToNumber_shape s with h | ⟨q, h⟩ <;> simp [h]

theorem jsNeNull_jsToNumber (s : String) : jsNeNull (jsToNumber s) = true := by
  rcases jsToNumber_shape s with h | ⟨q, h⟩ <;> simp [h, jsNeNull]

/-- A record passing the line chart filter has a numeric year of at
least 2010. -/
theorem lineFilter_year_num {d : Record}
    (h : (jsNeNull d.gross && jsNeNull d.year && jsGe d.year 2010) = true) :
    ∃ q : ℚ, d.year = JsVal.num q ∧ 2010 ≤ q := by
  simp only [Bool.and_eq_true] at h
  obtain ⟨-, hge⟩ := h
  cases hy : d.year with
  | null =>
    rw [hy] at hge
    simp only [jsGe, jsNumVal] at hge
    norm_num at hge
  | nan =>
    rw [hy] at hge
    simp [jsGe, jsNumVal] at hge
  | num q =>
    refine ⟨q, rfl, ?_⟩
    rw [hy] at hge
    simpa [jsGe, jsNumVal] using hge

/-- The second components of the rollup output sum to the per-record
numeric gross contributions over the filtered data. -/
theorem sumGrossByYear_snd_sum (data : List Record) :
    ((sumGrossByYear data).map (fun p => p.2)).sum
      = ((lineCleanData data).map (fun d => qVal d.gross)).sum := by
  unfold sumGrossByYear
  rw [List.map_map]
  have hcomp : ((fun p : JsVal × ℚ => p.2) ∘
      (fun p : JsVal × List Record =>
        (p.1, d3sum (p.2.map (fun d => d.gross)))))
      = fun p : JsVal × List Record => d3sum (p.2.map (fun d => d.gross)) :=
    rfl
  rw [hcomp,
    ← jsGroups_sum (fun d : Record => d.year) (fun d => qVal d.gross)
      (lineCleanData data)]
  refine congrArg List.sum (List.map_congr_left ?_)
  intro p _
  rw [d3sum_eq, List.map_map]
  rfl

/-- Every element of the pre-sort line chart list has a numeric year. -/
theorem lineData_pre_year_num {data : List Record} {a : YearlyTotal}
    (ha : a ∈ (sumGrossByYear data).map
      (fun p => (⟨p.1, p.2⟩ : YearlyTotal))) :
    ∃ q : ℚ, a.year = JsVal.num q ∧ 2010 ≤ q := by
  obtain ⟨p, hp, rfl⟩ := List.mem_map.mp ha
  obtain ⟨g, hg, rfl⟩ := List.mem_map.mp hp
  obtain ⟨x, hx, hkey⟩ := jsGroups_key_mem (List.mem_map_of_mem Prod.fst hg)
  obtain ⟨q, hq, hge⟩ := lineFilter_year_num (List.mem_filter.mp hx).2
  exact ⟨q, by rw [← hkey, hq], hge⟩

/-- The years of the pre-sort line chart list are exactly the rollup keys
in order. -/
theorem lineData_pre_years (data : List Record) :
    ((sumGrossByYear data).map
      (fun p => (⟨p.1, p.2⟩ : YearlyTotal))).map (fun a => a.year)
      = (jsGroups (fun d : Record => d.year) (lineCleanData data)).map
          Prod.fst := by
  unfold sumGrossByYear
  rw [List.map_map, List.map_map]
  rfl

/-! Claim theorems. -/

/-- C5: for every valid domain/range pair with `domainMin ≠ domainMax`,
the linear scale mapper sends `domainMin` to `rangeMin` and `domainMax`
to `rangeMax`. -/
theorem c5_linear_endpoints (d0 d1 r0 r1 : ℚ) (hne : d0 ≠ d1) :
    linearMapper d0 d1 r0 r1 d0 = r0 ∧ linearMapper d0 d1 r0 r1 d1 = r1 := by
  constructor
  · rw [linearMapper, if_neg hne]
    simp
  · rw [linearMapper, if_neg hne, div_self (sub_ne_zero.mpr (Ne.symm hne))]
    ring

/-- Witness for C5 at the concrete domain `[0, 2]` and range `[5, 9]`. -/
theorem c5_linear_endpoints_witness :
    linearMapper 0 2 5 9 0 = 5 ∧ linearMapper 0 2 5 9 2 = 9 :=
  c5_linear_endpoints 0 2 5 9 (by norm_num)

/-- C6: with a single-point domain (`domainMin = domainMax`) the linear
mapper maps every input value to `rangeMin`; the guarded branch never
divides by the zero-width domain. -/
theorem c6_single_point_domain (d r0 r1 x : ℚ) :
    linearMapper d d r0 r1 x = r0 := by
  simp [linearMapper]

/-- C7: on an empty record sequence both aggregators return empty
sequences, and the categorical band mapper with zero categories returns
an undefined position and zero bandwidth. -/
theorem c7_empty_input :
    lineData [] = [] ∧ barFinalArr [] = [] ∧
    (∀ (c : String) (r0 r1 padding : ℚ),
      bandPosition [] r0 r1 padding c = none) ∧
    (∀ r0 r1 padding : ℚ, bandWidth [] r0 r1 padding = 0) := by
  exact ⟨rfl, rfl, fun c r0 r1 padding => rfl, fun r0 r1 padding => rfl⟩

/-- C2 counterexample: the empty string does not coerce to a null or
missing marker — unary plus turns it into the number `0`. -/
theorem c2_counterexample :
    ¬ (jsToNumber "" = JsVal.nan ∨ jsToNumber "" = JsVal.null) := by
  decide

/-- C2 (amended): coercion is total — a value that fails numeric coercion
becomes `NaN` (never `null`), except the empty string which coerces to
the number `0`; every record survives loading with never-null numeric
fields, so exclusion can only happen in a downstream pipeline's filter. -/
theorem c2_coercion_non_fatal (raws : List RawRecord) :
    (loadData raws).length = raws.length ∧
    (∀ r ∈ loadData raws,
      r.gross ≠ JsVal.null ∧ r.score ≠ JsVal.null ∧ r.year ≠ JsVal.null) ∧
    (∀ s : String,
      jsToNumber s = JsVal.nan ∨ ∃ q : ℚ, jsToNumber s = JsVal.num q) ∧
    jsToNumber "" = JsVal.num 0 := by
  refine ⟨by simp [loadData], ?_, jsToNumber_shape, by decide⟩
  intro r hr
  obtain ⟨raw, -, rfl⟩ := List.mem_map.mp hr
  exact ⟨jsToNumber_ne_null _, jsToNumber_ne_null _, jsToNumber_ne_null _⟩

/-- C9: after coercion no gross field is null, so the gross-non-null test
of the yearly pipeline excludes nothing: the filtered sequence equals the
loaded data filtered by the year conditions alone. -/
theorem c9_gross_test_vacuous (raws : List RawRecord) :
    (∀ r ∈ loadData raws, r.gross ≠ JsVal.null) ∧
    lineCleanData (loadData raws) = lineCleanDataYearOnly (loadData raws) := by
  constructor
  · intro r hr
    obtain ⟨raw, -, rfl⟩ := List.mem_map.mp hr
    exact jsToNumber_ne_null _
  · refine List.filter_congr ?_
    intro d hd
    obtain ⟨raw, -, rfl⟩ := List.mem_map.mp hd
    simp [loadRow, jsNeNull_jsToNumber]

/-- C8: both pipelines are pure functions of the input sequence
(re-running them gives identical outputs), and the bar chart sort is
stable: grouped directors with equal average scores keep their grouping
order in the sorted sequence. -/
theorem c8_pure_and_stable (data : List Record) :
    lineData data = lineData data ∧
    barFinalArr data = barFinalArr data ∧
    ∀ a b : DirectorAverage, [a, b].Sublist (barFromMap data) →
      a.score = b.score → [a, b].Sublist (barSorted data) := by
  refine ⟨rfl, rfl, fun a b hab htie => ?_⟩
  refine jsSort_stable hab ?_
  show sortLeB (jsSubOpt b.score a.score) = true
  rw [← htie]
  cases a.score with
  | none => simp [jsSubOpt, sortLeB]
  | some q => simp [jsSubOpt, sortLeB]

/-- C1 counterexample: on a record whose gross is `NaN` in a qualifying
year the output total is the number `0`, while the literal sum of gross
over the filtered records is `NaN`. -/
theorem c1_counterexample :
    ¬ (JsVal.num (((lineData dataC1).map (fun p => p.gross)).sum)
        = specSumGross ((lineCleanData dataC1).map (fun d => d.gross))) := by
  decide

/-- C1 (amended): the sum of grossTotal over the yearly output equals the
sum of gross over exactly those input records whose gross is a non-NaN
number, whose year is non-null and whose year is at least 2010 (a
filtered record whose gross is `NaN` contributes nothing to either
side). -/
theorem c1_total_gross (data : List Record) :
    ((lineData data).map (fun p => p.gross)).sum
      = ((lineCleanData data).filterMap (fun d => numPart d.gross)).sum := by
  have h1 := ((jsSort_perm lineLe ((sumGrossByYear data).map
      (fun p => (⟨p.1, p.2⟩ : YearlyTotal)))).map
      (fun p : YearlyTotal => p.gross)).sum_eq
  have h2 : ((sumGrossByYear data).map
      (fun p => (⟨p.1, p.2⟩ : YearlyTotal))).map (fun p : YearlyTotal => p.gross)
      = (sumGrossByYear data).map (fun p => p.2) := by
    rw [List.map_map]
    rfl
  have h4 : ((lineCleanData data).map (fun d : Record => d.gross)).filterMap
      numPart = (lineCleanData data).filterMap (fun d => numPart d.gross) :=
    List.filterMap_map _ _ _
  calc ((lineData data).map (fun p => p.gross)).sum
      = (((sumGrossByYear data).map (fun p => (⟨p.1, p.2⟩ : YearlyTotal))).map
          (fun p : YearlyTotal => p.gross)).sum := h1
    _ = ((sumGrossByYear data).map (fun p => p.2)).sum := by rw [h2]
    _ = ((lineCleanData data).map (fun d => qVal d.gross)).sum :=
        sumGrossByYear_snd_sum data
    _ = (((lineCleanData data).map (fun d : Record => d.gross)).map qVal).sum :=
        by rw [List.map_map]; rfl
    _ = (((lineCleanData data).map (fun d : Record => d.gross)).filterMap
          numPart).sum := (filterMap_numPart_sum _).symm
    _ = ((lineCleanData data).filterMap (fun d => numPart d.gross)).sum := by
        rw [h4]

/-- C4: the yearly output's year values are strictly increasing — each
distinct year appears once and the sequence ascends by year. -/
theorem c4_years_strictly_increasing (data : List Record) :
    (lineData data).Pairwise (fun a b => yearLt a b = true) := by
  have htot : ∀ a b : YearlyTotal,
      (∃ q : ℚ, a.year = JsVal.num q ∧ 2010 ≤ q) →
      (∃ q : ℚ, b.year = JsVal.num q ∧ 2010 ≤ q) →
      lineLe a b = true ∨ lineLe b a = true := by
    rintro a b ⟨x, hx, -⟩ ⟨y, hy, -⟩
    rcases le_total x y with h | h
    · exact Or.inl (by simp [lineLe, jsSub, jsNumVal, hx, hy, sortLeB, h,
        sub_nonpos])
    · exact Or.inr (by simp [lineLe, jsSub, jsNumVal, hx, hy, sortLeB, h,
        sub_nonpos])
  have htrans : ∀ a b c : YearlyTotal,
      (∃ q : ℚ, a.year = JsVal.num q ∧ 2010 ≤ q) →
      (∃ q : ℚ, b.year = JsVal.num q ∧ 2010 ≤ q) →
      (∃ q : ℚ, c.year = JsVal.num q ∧ 2010 ≤ q) →
      lineLe a b = true → lineLe b c = true → lineLe a c = true := by
    rintro a b c ⟨x, hx, -⟩ ⟨y, hy, -⟩ ⟨z, hz, -⟩ hab hbc
    simp only [lineLe, jsSub, jsNumVal, hx, hy, hz, sortLeB,
      decide_eq_true_eq, sub_nonpos] at hab hbc ⊢
    exact le_trans hab hbc
  have hpair : (lineData data).Pairwise (fun a b => lineLe a b = true) :=
    jsSort_pairwise htot htrans (fun a ha => lineData_pre_year_num ha)
  have hkeysnodup : (((sumGrossByYear data).map
      (fun p => (⟨p.1, p.2⟩ : YearlyTotal))).map (fun a => a.year)).Nodup := by
    rw [lineData_pre_years]
    exact jsGroups_keys_nodup _ _
  have hsortnodup : ((lineData data).map (fun a => a.year)).Nodup :=
    hkeysnodup.perm ((jsSort_perm lineLe _).map (fun a => a.year)).symm
  have hneq : (lineData data).Pairwise
      (fun a b : YearlyTotal => a.year ≠ b.year) :=
    List.pairwise_map.mp hsortnodup
  rw [List.pairwise_iff_forall_sublist]
  intro a b hab
  have hle := List.pairwise_iff_forall_sublist.mp hpair hab
  have hne := List.pairwise_iff_forall_sublist.mp hneq hab
  have hma : a ∈ lineData data := hab.subset (by simp)
  have hmb : b ∈ lineData data := hab.subset (by simp)
  obtain ⟨x, hx, -⟩ := lineData_pre_year_num (mem_jsSort.mp hma)
  obtain ⟨y, hy, -⟩ := lineData_pre_year_num (mem_jsSort.mp hmb)
  have hxy : x ≤ y := by
    simpa [lineLe, jsSub, jsNumVal, hx, hy, sortLeB, sub_nonpos] using hle
  have hxney : x ≠ y := by
    intro hEq
    exact hne (by rw [hx, hy, hEq])
  simp [yearLt, hx, hy, lt_of_le_of_ne hxy hxney]

/-- When every retained record of the bar pipeline carries a numeric
score, every grouped director's average is a defined number. -/
theorem barFromMap_mem_score {data : List Record} {a : DirectorAverage}
    (hnum : ∀ r ∈ barCleanData data, ∃ q : ℚ, r.score = JsVal.num q)
    (ha : a ∈ barFromMap data) : ∃ q : ℚ, a.score = some q := by
  obtain ⟨p, hp, rfl⟩ := List.mem_map.mp ha
  obtain ⟨g, hg, rfl⟩ := List.mem_map.mp hp
  obtain ⟨x, hx, hkey⟩ := jsGroups_key_mem (List.mem_map_of_mem Prod.fst hg)
  have hxg : x ∈ g.2 := by
    rw [jsGroups_eq_filter hg]
    exact List.mem_filter.mpr ⟨hx, by simp [hkey]⟩
  obtain ⟨qx, hqx⟩ := hnum x hx
  have hmem : qx ∈ (g.2.map (fun d => d.score)).filterMap numPart := by
    refine List.mem_filterMap.mpr ⟨x.score, List.mem_map_of_mem _ hxg, ?_⟩
    rw [hqx]
    rfl
  show ∃ q : ℚ, d3mean (g.2.map (fun d => d.score)) = some q
  rw [d3mean, ratMean]
  rw [if_neg (by simpa [List.isEmpty_iff] using List.ne_nil_of_mem hmem)]
  exact ⟨_, rfl⟩

/-- C3 counterexample: with an all-NaN-score director grouped between two
numerically scored ones, the top-directors output is not sorted in
non-increasing order of average score (the averages run 5, undefined,
9). -/
theorem c3_counterexample :
    ¬ ((barFinalArr dataC3).Pairwise
        (fun a b => scoreGeOpt a.score b.score = true)) := by
  intro h
  have heq : barFinalArr dataC3
      = [⟨"A", some 5⟩, ⟨"U", none⟩, ⟨"B", some 9⟩] := by
    simp [barFinalArr, barSorted, barFromMap, barMap, barCleanData, dataC3,
      jsGroups, jsGroupsF, jsSort, jsInsert, barLe, jsSubOpt, sortLeB, d3mean,
      ratMean, numPart, jsNeNull]
  rw [heq] at h
  have h59 := List.pairwise_iff_forall_sublist.mp h
    (show [(⟨"A", some 5⟩ : DirectorAverage), ⟨"B", some 9⟩].Sublist
      [⟨"A", some 5⟩, ⟨"U", none⟩, ⟨"B", some 9⟩] from
      List.Sublist.cons₂ _ (List.Sublist.cons _ (List.Sublist.refl _)))
  simp [scoreGeOpt] at h59
  norm_num at h59

/-- C3 (amended): the top-directors output always has length at most 6;
with fewer than 6 distinct qualifying directors it consists of exactly
all of them, no padding; and it is sorted in non-increasing order of
averageScore provided every retained record carries a numeric (non-NaN)
score, so that no average is undefined. -/
theorem c3_top_directors (data : List Record) :
    (barFinalArr data).length ≤ 6 ∧
    ((barMap data).length < 6 → (barFinalArr data).Perm (barFromMap data)) ∧
    ((∀ r ∈ barCleanData data, ∃ q : ℚ, r.score = JsVal.num q) →
      (barFinalArr data).Pairwise
        (fun a b => scoreGeOpt a.score b.score = true)) := by
  refine ⟨List.length_take_le 6 _, ?_, ?_⟩
  · intro hlt
    have hlen : (barSorted data).length ≤ 6 := by
      have hp := (jsSort_perm barLe (barFromMap data)).length_eq
      have hfm : (barFromMap data).length = (barMap data).length := by
        simp [barFromMap]
      show (jsSort barLe (barFromMap data)).length ≤ 6
      omega
    show ((barSorted data).take 6).Perm (barFromMap data)
    rw [List.take_of_length_le hlen]
    exact jsSort_perm _ _
  · intro hnum
    have htot : ∀ a b : DirectorAverage,
        (∃ q : ℚ, a.score = some q) → (∃ q : ℚ, b.score = some q) →
        barLe a b = true ∨ barLe b a = true := by
      rintro a b ⟨x, hx⟩ ⟨y, hy⟩
      rcases le_total y x with h | h
      · exact Or.inl (by simp [barLe, jsSubOpt, hx, hy, sortLeB, h,
          sub_nonpos])
      · exact Or.inr (by simp [barLe, jsSubOpt, hx, hy, sortLeB, h,
          sub_nonpos])
    have htrans : ∀ a b c : DirectorAverage,
        (∃ q : ℚ, a.score = some q) → (∃ q : ℚ, b.score = some q) →
        (∃ q : ℚ, c.score = some q) →
        barLe a b = true → barLe b c = true → barLe a c = true := by
      rintro a b c ⟨x, hx⟩ ⟨y, hy⟩ ⟨z, hz⟩ hab hbc
      simp only [barLe, jsSubOpt, hx, hy, hz, sortLeB, decide_eq_true_eq,
        sub_nonpos] at hab hbc ⊢
      exact le_trans hbc hab
    have hpair : (barSorted data).Pairwise (fun a b => barLe a b = true) :=
      jsSort_pairwise htot htrans (fun a ha => barFromMap_mem_score hnum ha)
    refine List.Pairwise.sublist (List.take_sublist 6 _) ?_
    rw [List.pairwise_iff_forall_sublist]
    intro a b hab
    have hle := List.pairwise_iff_forall_sublist.mp hpair hab
    obtain ⟨x, hx⟩ := barFromMap_mem_score hnum
      (mem_jsSort.mp (hab.subset (show a ∈ [a, b] by simp)))
    obtain ⟨y, hy⟩ := barFromMap_mem_score hnum
      (mem_jsSort.mp (hab.subset (show b ∈ [a, b] by simp)))
    have hyx : y ≤ x := by
      simpa [barLe, jsSubOpt, hx, hy, sortLeB, sub_nonpos] using hle
    simp [scoreGeOpt, hx, hy, hyx]

/-- C10: a score that fails coercion becomes `NaN` and still passes the
bar pipeline's score-non-null test; each director's average is the mean
of only that director's validly coerced (numeric) scores; and a director
all of whose retained records carry `NaN` scores gets an undefined
average that can still appear in the top-6 output (shown on a concrete
one-row dataset). -/
theorem c10_nan_scores :
    (∀ raw : RawRecord, jsToNumber raw.imdb_score = JsVal.nan →
      jsNeNull (loadRow raw).score = true) ∧
    (∀ (data : List Record) (k : String) (v : Option ℚ),
      (k, v) ∈ barMap data →
      v = ratMean (((barCleanData data).filter
            (fun r => r.director = k)).filterMap (fun r => numPart r.score))) ∧
    barFinalArr (loadData [rawC10]) = [⟨"X", none⟩] := by
  refine ⟨?_, ?_, by decide⟩
  · intro raw h
    show jsNeNull (jsToNumber raw.imdb_score) = true
    rw [h]
    rfl
  · intro data k v hkv
    obtain ⟨p, hp, heq⟩ := List.mem_map.mp hkv
    injection heq with hk hv
    rw [← hv, ← hk, jsGroups_eq_filter hp, d3mean, List.filterMap_map]
    rfl

end Movies
